import Mathlib

/-!
Shallow embedding of the window/workspace state engine of src/src/wm.c
(the client/workspace management core of a floating window manager).

Pure data is modelled directly.  Calls into the display server (X11)
are modelled as an explicit list of emitted effects.  C null-pointer
dereferences and other memory faults are modelled by Option, with
none denoting a fault.  Machine integers are modelled as Int (no
arithmetic in the verified claims approaches the 32-bit range, except
for the INT_MAX sentinel of the cardinal-focus scan, which is kept
explicit).
-/

/-- Content-geometry rectangle: the x, y, width, height fields of a
client's geom member (wm.c stores the decoration origin here when the
client is decorated). -/
structure Geom where
  x : Int
  y : Int
  width : Int
  height : Int
  deriving DecidableEq

/-- One managed top-level window, mirroring struct client as used by
wm.c: the content window handle, the decoration window handle (valid
only when decorated), the recorded workspace, the stored geometry,
and the decorated / hidden / fullscreen flags plus the saved x
coordinate used by hide and show.  The intrusive next and f_next
links are represented by the position of the client's window handle
in the per-workspace stacking and focus lists of the state. -/
structure Client where
  window : Nat
  dec : Nat
  ws : Int
  geom : Geom
  decorated : Bool
  hidden : Bool
  fullscreen : Bool
  x_hide : Int
  deriving DecidableEq

/-- One physical display region, mirroring struct monitor as filled in
by setup_monitors from the Xinerama data. -/
structure Monitor where
  x : Int
  y : Int
  width : Int
  height : Int
  screen : Int
  deriving DecidableEq

/-- The global configuration record, mirroring struct config (border
widths, title height, colors, step sizes, edge-lock flag, top gap). -/
structure Config where
  b_width : Int
  t_height : Int
  i_width : Int
  bf_color : Int
  bu_color : Int
  if_color : Int
  iu_color : Int
  m_step : Int
  r_step : Int
  focus_new : Bool
  edge_lock : Bool
  top_gap : Int
  deriving DecidableEq

/-- One call issued to the display surface (the X server).  Each
constructor records one Xlib call made by wm.c together with its
arguments, at the granularity at which the claims observe them;
setColor stands for the XSetWindowBackground / XSetWindowBorder /
XClearWindow triple of client_set_color. -/
inductive Effect where
  | moveWindow (w : Nat) (x y : Int)
  | resizeWindow (w : Nat) (width height : Int)
  | raiseWindow (w : Nat)
  | lowerWindow (w : Nat)
  | setColor (w : Nat) (inner border : Int)
  | setInput (w : Nat)
  | deleteActiveProp
  | setActiveProp (w : Nat)
  | sendTakeFocus (w : Nat)
  | setFullscreenProp (w : Nat)
  | clearFullscreenProp (w : Nat)
  | createWindow (w : Nat) (x y width height : Int)
  | mapWindow (w : Nat)
  | setCurrentDesktopProp (ws : Int)
  | updateClientListProp (widths : List Int)
  deriving DecidableEq

/-- Modelled from the spec: MINIMUM_DIM, the "minimum dimension
constant" every dimension is floored at (spec 4.3); the constant is
defined in a header that is not under src, so its concrete value is a
representative choice.  No claim depends on the value. -/
def MINIMUM_DIM : Int := 10

/-- The INT_MAX sentinel that client_cardinal_focus starts its
minimum-distance accumulator at (limits.h, 32-bit int). -/
def INT_MAX : Int := 2147483647

/-- client_move_absolute (wm.c:898-916): always stores (x, y) into the
client's geometry; when decorated, the content window is sent to the
display surface offset by inner border + border (and title height
vertically) while the decoration window is sent to (x, y) itself. -/
def client_move_absolute (conf : Config) (c : Client) (x y : Int) :
    Client × List Effect :=
  let dest_x : Int := if c.decorated then x + conf.i_width + conf.b_width else x
  let dest_y : Int :=
    if c.decorated then y + conf.i_width + conf.b_width + conf.t_height else y
  ({ c with geom := { c.geom with x := x, y := y } },
    Effect.moveWindow c.window dest_x dest_y ::
      (if c.decorated then [Effect.moveWindow c.dec x y] else []))

/-- client_resize_absolute (wm.c:1076-1098): when decorated, the
content dimensions sent to the display surface subtract twice the
inner border and border (and the title height from the height) and
the decoration dimensions subtract twice the border; every dimension
sent is floored at MINIMUM_DIM, and the stored width and height are
floored at MINIMUM_DIM as well. -/
def client_resize_absolute (conf : Config) (c : Client) (w h : Int) :
    Client × List Effect :=
  let dw : Int :=
    if c.decorated then w - 2 * conf.i_width - 2 * conf.b_width else w
  let dh : Int :=
    if c.decorated then h - 2 * conf.i_width - 2 * conf.b_width - conf.t_height
    else h
  let dec_w : Int := if c.decorated then w - 2 * conf.b_width else w
  let dec_h : Int := if c.decorated then h - 2 * conf.b_width else h
  ({ c with geom :=
      { c.geom with width := max w MINIMUM_DIM, height := max h MINIMUM_DIM } },
    Effect.resizeWindow c.window (max dw MINIMUM_DIM) (max dh MINIMUM_DIM) ::
      (if c.decorated then
        [Effect.resizeWindow c.dec (max dec_w MINIMUM_DIM) (max dec_h MINIMUM_DIM)]
      else []))

/-- client_move_relative (wm.c:918-948): with edge lock enabled the
destination is clamped against the owning monitor (right edge, then
left edge, for x; bottom edge, then top edge offset by top_gap, for
y — note the top clamp stores the monitor's y itself), then delegates
to client_move_absolute; without edge lock the delta is applied
unclamped.  The owning monitor is passed in by the caller (it is read
from m_list only in the edge-lock branch). -/
def client_move_relative (conf : Config) (mon : Monitor) (c : Client) (x y : Int) :
    Client × List Effect :=
  if conf.edge_lock then
    let dx : Int :=
      if c.geom.x + c.geom.width + x > mon.width + mon.x then
        mon.width + mon.x - c.geom.width
      else if c.geom.x + x < mon.x then mon.x
      else c.geom.x + x
    let dy : Int :=
      if c.geom.y + c.geom.height + y > mon.height + mon.y then
        mon.height + mon.y - c.geom.height
      else if c.geom.y + y < mon.y + conf.top_gap then mon.y
      else c.geom.y + y
    client_move_absolute conf c dx dy
  else
    client_move_absolute conf c (c.geom.x + x) (c.geom.y + y)

/-- client_resize_relative (wm.c:1100-1129): with edge lock enabled
the growth is capped at the monitor's right edge and (accounting for
the title height) bottom edge, then delegates to
client_resize_absolute; without edge lock the delta is applied
unclamped. -/
def client_resize_relative (conf : Config) (mon : Monitor) (c : Client) (w h : Int) :
    Client × List Effect :=
  if conf.edge_lock then
    let dw : Int :=
      if c.geom.x + c.geom.width + w > mon.x + mon.width then
        mon.x + mon.width - c.geom.x
      else c.geom.width + w
    let dh : Int :=
      if c.geom.y + c.geom.height + conf.t_height + h > mon.y + mon.height then
        mon.height + mon.y - c.geom.y
      else c.geom.height + h
    client_resize_absolute conf c dw dh
  else
    client_resize_absolute conf c (c.geom.width + w) (c.geom.height + h)

/-- client_fullscreen (wm.c:348-361): unconditionally moves the client
to the monitor origin and resizes it to the monitor bounds, then sets
the exported fullscreen state property when the flag was clear and
clears the property when the flag was set, and finally toggles the
flag. -/
def client_fullscreen (conf : Config) (mon : Monitor) (c : Client) :
    Client × List Effect :=
  let m := client_move_absolute conf c mon.x mon.y
  let r := client_resize_absolute conf m.1 mon.width mon.height
  let prop : Effect :=
    if r.1.fullscreen = false then Effect.setFullscreenProp r.1.window
    else Effect.clearFullscreenProp r.1.window
  ({ r.1 with fullscreen := !r.1.fullscreen }, m.2 ++ r.2 ++ [prop])

/-- client_hide (wm.c:485-495): when not already hidden, saves the
current x into x_hide, moves the client past the display width and
marks it hidden; a hidden client is left untouched. -/
def client_hide (conf : Config) (display_width : Int) (c : Client) :
    Client × List Effect :=
  if c.hidden then (c, [])
  else
    let c1 := { c with x_hide := c.geom.x }
    let m := client_move_absolute conf c1 (display_width + conf.b_width) c1.geom.y
    ({ m.1 with hidden := true }, m.2)

/-- client_set_color (wm.c:1189-1197): repaints the decoration with
the given inner and border colors; an undecorated client gets no
display-surface call. -/
def client_set_color_eff (c : Client) (i_color b_color : Int) : List Effect :=
  if c.decorated then [Effect.setColor c.dec i_color b_color] else []

/-- client_raise (wm.c:983-992): raises the decoration (when present)
and then the content window. -/
def client_raise_eff (c : Client) : List Effect :=
  (if c.decorated then [Effect.raiseWindow c.dec] else []) ++
    [Effect.raiseWindow c.window]

/-- Shared concrete fixtures used by witnesses and counterexamples. -/
def confA : Config :=
  { b_width := 2, t_height := 20, i_width := 1, bf_color := 1, bu_color := 2,
    if_color := 3, iu_color := 4, m_step := 10, r_step := 10, focus_new := true,
    edge_lock := true, top_gap := 10 }

/-- A 100 by 100 monitor at the origin. -/
def monA : Monitor := { x := 0, y := 0, width := 100, height := 100, screen := 0 }

/-- A small decorated client at (20, 20). -/
def clientA : Client :=
  { window := 5, dec := 6, ws := 0,
    geom := { x := 20, y := 20, width := 10, height := 10 },
    decorated := true, hidden := false, fullscreen := false, x_hide := 0 }

/-- Removal of a client's handle from one intrusive singly linked list,
as client_delete does it for both the stacking and the focus list
(wm.c:307-316 and 321-329): the head case takes the successor,
otherwise the predecessor is searched by a linear walk and unlinked.
When the handle is absent (including the empty list) the C walk runs
off the end and dereferences NULL; that fault is modelled as none. -/
def listRemove (w : Nat) : List Nat → Option (List Nat)
  | [] => none
  | x :: xs => if x = w then some xs else (listRemove w xs).map (fun ys => x :: ys)

/-- client_save (wm.c:1147-1157): pushes the client onto the head of
both the stacking list and the focus list of the given workspace. -/
def client_save_lists (w : Nat) (ws : Nat) (cl fl : List (List Nat)) :
    List (List Nat) × List (List Nat) :=
  (cl.set ws (w :: cl.getD ws []), fl.set ws (w :: fl.getD ws []))

/-- The list part of client_delete (wm.c:294-335): unlinks the client
from the stacking list and the focus list of its recorded workspace;
none models the NULL dereference the C code performs when the client
is not in a list. -/
def client_delete_lists (w : Nat) (ws : Nat) (cl fl : List (List Nat)) :
    Option (List (List Nat) × List (List Nat)) :=
  match listRemove w (cl.getD ws []), listRemove w (fl.getD ws []) with
  | some cl2, some fl2 => some (cl.set ws cl2, fl.set ws fl2)
  | _, _ => none

/-- client_move_to_front (wm.c:950-972) restricted to its list
manipulation: a client already at the head, or a singleton list,
is left alone; otherwise the client is unlinked (NULL dereference,
hence none, when absent) and consed onto the front.  The C code also
dereferences the head of an empty list in its guard, hence none. -/
def client_move_to_front_list (w : Nat) : List Nat → Option (List Nat)
  | [] => none
  | x :: xs =>
    if x = w ∨ xs = [] then some (x :: xs)
    else (listRemove w xs).map (fun ys => w :: x :: ys)

/-- Number of occurrences of a handle in one list. -/
def cnt (w : Nat) : List Nat → Nat
  | [] => 0
  | x :: xs => (if x = w then 1 else 0) + cnt w xs

/-- Number of occurrences of a handle across all workspace lists. -/
def occ (w : Nat) : List (List Nat) → Nat
  | [] => 0
  | l :: ls => cnt w l + occ w ls

/-- The Client Registry invariant of the spec (section 4.1): every
client handle occurs at most once across the stacking lists and at
most once across the focus lists, and for each workspace the stacking
list and the focus list have the same members. -/
def RegInv (cl fl : List (List Nat)) : Prop :=
  ∀ w : Nat, occ w cl ≤ 1 ∧ occ w fl ≤ 1 ∧
    ∀ i : Nat, (w ∈ cl.getD i [] ↔ w ∈ fl.getD i [])

/-- The four cardinal directions of client_cardinal_focus (the EAST,
SOUTH, WEST, NORTH constants live in a header not under src; the
handler is modelled as receiving the decoded direction). -/
inductive Dir where
  | east
  | south
  | west
  | north
  deriving DecidableEq

/-- The strict side test of client_cardinal_focus (wm.c:179-206): a
candidate must have strictly greater x (EAST), strictly greater y
(SOUTH), strictly lesser x (WEST) or strictly lesser y (NORTH) than
the focused client. -/
def onSide (dir : Dir) (c t : Client) : Bool :=
  match dir with
  | Dir.east => decide (t.geom.x > c.geom.x)
  | Dir.south => decide (t.geom.y > c.geom.y)
  | Dir.west => decide (t.geom.x < c.geom.x)
  | Dir.north => decide (t.geom.y < c.geom.y)

/-- Modelled from the spec: euclidean_distance lives in a source file
not under src (only its call from wm.c:176 is); the spec says the scan
computes "Euclidean distance between geometry centers".  The squared
Euclidean distance between the geometry centres is used, which induces
the same comparisons. -/
def euclidean_distance (a b : Client) : Int :=
  let dx := (a.geom.x + a.geom.width / 2) - (b.geom.x + b.geom.width / 2)
  let dy := (a.geom.y + a.geom.height / 2) - (b.geom.y + b.geom.height / 2)
  dx * dx + dy * dy

/-- The accumulator loop of client_cardinal_focus (wm.c:174-209): walks
the whole stacking list of the current workspace (hidden clients are
not filtered out), keeping the candidate on the requested side whose
distance is strictly below the running minimum, which starts at
INT_MAX. -/
def client_cardinal_focus_scan (c : Client) (dir : Dir) :
    List Client → Int → Option Client → Option Client
  | [], _, best => best
  | t :: ts, m, best =>
    if onSide dir c t = true ∧ euclidean_distance c t < m then
      client_cardinal_focus_scan c dir ts (euclidean_distance c t) (some t)
    else
      client_cardinal_focus_scan c dir ts m best

/-- The candidate client_cardinal_focus ends up focusing (none when it
logs "no valid windows found" and returns without touching anything). -/
def cardinal_target (c : Client) (dir : Dir) (l : List Client) : Option Client :=
  client_cardinal_focus_scan c dir l INT_MAX none

/-- The global mutable state of wm.c: the focused-client reference
f_client, the allocated client structs (keyed by their content window
handle), the per-workspace stacking lists c_list and focus lists
f_list (as lists of window handles, representing the intrusive next
and f_next chains), the workspace-to-monitor map ws_m_list, the
monitor table m_list, the current workspace, the configuration and
the root display dimensions. -/
structure WMState where
  f_client : Option Nat
  clients : List Client
  c_list : List (List Nat)
  f_list : List (List Nat)
  ws_m_list : List Nat
  m_list : List Monitor
  curr_ws : Nat
  conf : Config
  display_width : Int
  display_height : Int
  deriving DecidableEq

/-- Array indexing by a C int: the workspace fields are ints in wm.c
and are used as array indices; all states exercised here keep them in
range. -/
def idx (i : Int) : Nat := i.toNat

/-- Resolution of a client pointer: the struct whose content window
handle is w. -/
def findClient (s : WMState) (w : Nat) : Option Client :=
  s.clients.find? (fun c => c.window == w)

/-- Writing back a mutated client struct into the state. -/
def updClient (s : WMState) (c : Client) : WMState :=
  { s with clients := s.clients.map (fun d => if d.window = c.window then c else d) }

/-- The monitor-lookup wrapper for client_move_relative: mon is read
from ws_m_list[c->ws] and m_list[mon] only inside the edge-lock
branch; with edge lock off the C code never touches m_list, so a
placeholder monitor (ignored by that branch) is passed. -/
def st_move_relative (s : WMState) (c : Client) (x y : Int) :
    Option (Client × List Effect) :=
  if s.conf.edge_lock then
    match s.m_list.get? (s.ws_m_list.getD (idx c.ws) 0) with
    | none => none
    | some m => some (client_move_relative s.conf m c x y)
  else
    some (client_move_relative s.conf
      { x := 0, y := 0, width := 0, height := 0, screen := 0 } c x y)

/-- The monitor-lookup wrapper for client_resize_relative, as for
st_move_relative. -/
def st_resize_relative (s : WMState) (c : Client) (w h : Int) :
    Option (Client × List Effect) :=
  if s.conf.edge_lock then
    match s.m_list.get? (s.ws_m_list.getD (idx c.ws) 0) with
    | none => none
    | some m => some (client_resize_relative s.conf m c w h)
  else
    some (client_resize_relative s.conf
      { x := 0, y := 0, width := 0, height := 0, screen := 0 } c w h)

/-- client_refresh (wm.c:1032-1039): twice re-applies the client's own
geometry via move_relative(0,0) and resize_relative(0,0). -/
def st_client_refresh (s : WMState) (c : Client) : Option (Client × List Effect) := do
  let (c1, e1) ← st_move_relative s c 0 0
  let (c2, e2) ← st_resize_relative s c1 0 0
  let (c3, e3) ← st_move_relative s c2 0 0
  let (c4, e4) ← st_resize_relative s c3 0 0
  some (c4, e1 ++ e2 ++ e3 ++ e4)

/-- client_show (wm.c:1273-1283): a hidden client is moved back to its
saved x, raised, unmarked hidden and refreshed; a visible client is
left untouched. -/
def st_client_show (s : WMState) (c : Client) : Option (Client × List Effect) :=
  if c.hidden then do
    let m := client_move_absolute s.conf c c.x_hide c.geom.y
    let c2 := { m.1 with hidden := false }
    let (c3, e3) ← st_client_refresh s c2
    some (c3, m.2 ++ client_raise_eff m.1 ++ e3)
  else some (c, [])

/-- client_hide at state level: mutates the struct in the store. -/
def st_client_hide (s : WMState) (c : Client) : WMState × List Effect :=
  let r := client_hide s.conf s.display_width c
  (updClient s r.1, r.2)

/-- Resolution of every handle of a list against the client store
(the pointer walk of the C loops). -/
def resolveClients (s : WMState) : List Nat → Option (List Client)
  | [] => some []
  | w :: ws => do
    let c ← findClient s w
    let cs ← resolveClients s ws
    some (c :: cs)

/-- update_c_list (wm.c:1349-1358): rebuilds the exported client-list
property from every stacking list in workspace order (the C code
passes each client's geom.width field to XChangeProperty). -/
def st_update_c_list (s : WMState) : Option (List Effect) := do
  let cs ← resolveClients s s.c_list.flatten
  some [Effect.updateClientListProp (cs.map (fun c => c.geom.width))]

/-- client_delete (wm.c:294-335): aborts when the recorded workspace
is -1; otherwise unlinks the client from the stacking and focus lists
of its recorded workspace (a fault when absent), clears the
focused-client reference when that stacking list becomes empty, and
rebuilds the exported client list. -/
def st_client_delete (s : WMState) (c : Client) : Option (WMState × List Effect) :=
  if c.ws = -1 then some (s, [])
  else
    match client_delete_lists c.window (idx c.ws) s.c_list s.f_list with
    | none => none
    | some (cl2, fl2) =>
      let s1 := { s with c_list := cl2, f_list := fl2 }
      let s2 :=
        if s1.c_list.getD (idx c.ws) [] = [] then { s1 with f_client := none } else s1
      match st_update_c_list s2 with
      | none => none
      | some e => some (s2, e)

/-- client_save (wm.c:1147-1157) at state level. -/
def st_client_save (s : WMState) (w : Nat) (ws : Nat) : WMState :=
  let p := client_save_lists w ws s.c_list s.f_list
  { s with c_list := p.1, f_list := p.2 }

/-- client_move_to_front (wm.c:950-972) at state level. -/
def st_client_move_to_front (s : WMState) (c : Client) : Option WMState :=
  if c.ws = -1 then some s
  else
    match client_move_to_front_list c.window (s.c_list.getD (idx c.ws) []) with
    | none => none
    | some cl2 => some { s with c_list := s.c_list.set (idx c.ws) cl2 }

/-- client_manage_focus (wm.c:800-820): with a null argument both
guarded blocks are skipped and nothing at all happens.  With a
non-null client: if some client was focused it is repainted with the
unfocused pair and the new client is sent a take-focus message; then
the new client is repainted with the focused pair, raised, given
input focus, the active-window property is deleted and re-exported
for it, it is moved to the front of its stacking list, the
focused-client reference is set to it and it is sent take-focus. -/
def st_manage_focus (s : WMState) (oc : Option Nat) : Option (WMState × List Effect) :=
  match oc with
  | none => some (s, [])
  | some w =>
    match findClient s w with
    | none => none
    | some c =>
      let prev : Option (List Effect) :=
        match s.f_client with
        | none => some []
        | some fw =>
          match findClient s fw with
          | none => none
          | some fc =>
            some (client_set_color_eff fc s.conf.iu_color s.conf.bu_color ++
              [Effect.sendTakeFocus c.window])
      match prev with
      | none => none
      | some e1 =>
        match st_client_move_to_front s c with
        | none => none
        | some s1 =>
          some ({ s1 with f_client := some w },
            e1 ++ client_set_color_eff c s.conf.if_color s.conf.bf_color ++
              client_raise_eff c ++
              [Effect.setInput c.window, Effect.deleteActiveProp,
                Effect.setActiveProp c.window, Effect.sendTakeFocus c.window])

/-- client_center (wm.c:223-231): reads c->ws (the fault when the
handler passes a null focused-client reference) and the monitor
mapped to it, then moves the client so its centre coincides with the
monitor centre. -/
def st_client_center (s : WMState) (oc : Option Nat) : Option (WMState × List Effect) :=
  match oc with
  | none => none
  | some w =>
    match findClient s w with
    | none => none
    | some c =>
      match s.m_list.get? (s.ws_m_list.getD (idx c.ws) 0) with
      | none => none
      | some m =>
        let r := client_move_absolute s.conf c
          (m.x + m.width / 2 - c.geom.width / 2)
          (m.y + m.height / 2 - c.geom.height / 2)
        some (updClient s r.1, r.2)

/-- The successor of a handle in a focus list: the f_next field of the
intrusive chain. -/
def listSucc (w : Nat) : List Nat → Option Nat
  | [] => none
  | [_] => none
  | x :: y :: rest => if x = w then some y else listSucc w (y :: rest)

/-- focus_next (wm.c:366-383): null is ignored; a client that is both
the head and the sole member of its workspace's focus list is
re-focused; otherwise the client's focus-list successor (or, at the
tail, the focus-list head) is focused. -/
def st_focus_next (s : WMState) (oc : Option Nat) : Option (WMState × List Effect) :=
  match oc with
  | none => some (s, [])
  | some w =>
    match findClient s w with
    | none => none
    | some c =>
      let fl := s.f_list.getD (idx c.ws) []
      if fl = [w] then st_manage_focus s (some w)
      else
        match listSucc w fl with
        | some v => st_manage_focus s (some v)
        | none => st_manage_focus s fl.head?

/-- safe_to_focus loop body (wm.c:1162-1172): scanning workspace
indices in order, the first other workspace on the same monitor whose
stacking list is non-empty and whose head client is not hidden makes
the workspace unsafe; note only the head's hidden flag is consulted.
A dangling head pointer would be read freed memory, hence none. -/
def stf_go (s : WMState) (ws mon : Nat) : List Nat → Option Bool
  | [] => some true
  | i :: rest =>
    if i ≠ ws ∧ s.ws_m_list.getD i 0 = mon then
      match (s.c_list.getD i []).head? with
      | none => stf_go s ws mon rest
      | some w =>
        match findClient s w with
        | none => none
        | some c => if c.hidden = false then some false else stf_go s ws mon rest
    else stf_go s ws mon rest

/-- safe_to_focus (wm.c:1162-1172). -/
def safe_to_focus (s : WMState) (ws : Nat) : Option Bool :=
  stf_go s ws (s.ws_m_list.getD ws 0) (List.range s.c_list.length)

/-- client_send_to_ws (wm.c:1174-1187): deletes the client from its
lists, reassigns its workspace, re-saves it, hides it, advances focus
on the source workspace's focus list head, and shows the client again
only when the destination is safe to focus. -/
def st_client_send_to_ws (s : WMState) (c : Client) (ws : Int) :
    Option (WMState × List Effect) := do
  let (s1, e1) ← st_client_delete s c
  let prev := c.ws
  let c1 := { c with ws := ws }
  let s2 := updClient s1 c1
  let s3 := st_client_save s2 c1.window (idx ws)
  let (s4, e2) := st_client_hide s3 c1
  let (s5, e3) ← st_focus_next s4 ((s4.f_list.getD (idx prev) []).head?)
  match safe_to_focus s5 (idx ws) with
  | none => none
  | some b =>
    if b then
      match findClient s5 c1.window with
      | none => none
      | some c2 => do
        let (c3, e4) ← st_client_show s5 c2
        some (updClient s5 c3, e1 ++ e2 ++ e3 ++ e4)
    else some (s5, e1 ++ e2 ++ e3)

/-- client_cardinal_focus at state level (wm.c:164-218 with the call
from ipc_cardinal_focus at wm.c:710-715): the scan walks the current
workspace's stacking list; with a non-empty list the first loop
iteration evaluates euclidean_distance against the passed client, so
a null (or dangling) focused-client reference is dereferenced — a
fault.  With no candidate the function logs and returns, changing
nothing. -/
def st_cardinal_focus (s : WMState) (dir : Dir) : Option (WMState × List Effect) :=
  match s.c_list.getD s.curr_ws [] with
  | [] => some (s, [])
  | x :: xs =>
    match s.f_client with
    | none => none
    | some w =>
      match findClient s w with
      | none => none
      | some c =>
        match resolveClients s (x :: xs) with
        | none => none
        | some cs =>
          match cardinal_target c dir cs with
          | none => some (s, [])
          | some t => st_manage_focus s (some t.window)

/-- client_decorate_new (wm.c:259-273): computes the decoration
window's rectangle from the client's geometry and the configuration,
creates and maps it, and marks the client decorated.  The fresh
window handle the X server would return is passed in. -/
def client_decorate_new (conf : Config) (c : Client) (dec : Nat) :
    Client × List Effect :=
  let w := c.geom.width + 2 * conf.i_width
  let h := c.geom.height + 2 * conf.i_width + conf.t_height
  let x := c.geom.x - conf.i_width - conf.b_width
  let y := c.geom.y - conf.i_width - conf.b_width - conf.t_height
  ({ c with dec := dec, decorated := true },
    [Effect.createWindow dec x y w h, Effect.mapWindow dec])

/-- manage_new_window (wm.c:822-866): dock/toolbar/utility/menu
windows are mapped unmanaged; otherwise a client struct is created on
the current workspace with the window's geometry, decorated, mapped,
refreshed, saved, focused, centred, and the exported client list is
rebuilt. -/
def st_manage_new_window (s : WMState) (w dec : Nat) (wa : Geom) (special : Bool) :
    Option (WMState × List Effect) :=
  if special then some (s, [Effect.mapWindow w])
  else
    let c0 : Client :=
      { window := w, dec := 0, ws := Int.ofNat s.curr_ws, geom := wa,
        decorated := false, hidden := false, fullscreen := false, x_hide := 0 }
    let d := client_decorate_new s.conf c0 dec
    match st_client_refresh s d.1 with
    | none => none
    | some (c2, e3) =>
      let s1 := { s with clients := c2 :: s.clients }
      let s2 := st_client_save s1 w s.curr_ws
      match st_manage_focus s2 (some w) with
      | none => none
      | some (s3, e4) =>
        match st_client_center s3 (some w) with
        | none => none
        | some (s4, e5) =>
          match st_update_c_list s4 with
          | none => none
          | some e6 =>
            some (s4, d.2 ++ [Effect.mapWindow w] ++ e3 ++ e4 ++ e5 ++ e6)

/-- The hide loop of switch_ws over one workspace's stacking list. -/
def hideAll : List Nat → WMState → Option (WMState × List Effect)
  | [], s => some (s, [])
  | w :: rest, s =>
    match findClient s w with
    | none => none
    | some c =>
      let r := st_client_hide s c
      match hideAll rest r.1 with
      | none => none
      | some (s2, e2) => some (s2, r.2 ++ e2)

/-- The show-and-lower loop of switch_ws over the destination
workspace's stacking list (the C code lowers both the content window
and the dec field, decorated or not). -/
def showAllLower : List Nat → WMState → Option (WMState × List Effect)
  | [], s => some (s, [])
  | w :: rest, s =>
    match findClient s w with
    | none => none
    | some c =>
      match st_client_show s c with
      | none => none
      | some (c2, e1) =>
        let s1 := updClient s c2
        match showAllLower rest s1 with
        | none => none
        | some (s2, e3) =>
          some (s2, e1 ++ [Effect.lowerWindow c2.window, Effect.lowerWindow c2.dec] ++ e3)

/-- The workspace loop of switch_ws (wm.c:1308-1323): every other
workspace sharing the destination's monitor has its clients hidden;
the destination's clients are shown and lowered. -/
def switchLoop (ws : Nat) : List Nat → WMState → Option (WMState × List Effect)
  | [], s => some (s, [])
  | i :: rest, s =>
    if i ≠ ws ∧ s.ws_m_list.getD i 0 = s.ws_m_list.getD ws 0 then
      match hideAll (s.c_list.getD i []) s with
      | none => none
      | some (s1, e1) =>
        match switchLoop ws rest s1 with
        | none => none
        | some (s2, e2) => some (s2, e1 ++ e2)
    else if i = ws then
      match showAllLower (s.c_list.getD i []) s with
      | none => none
      | some (s1, e1) =>
        match switchLoop ws rest s1 with
        | none => none
        | some (s2, e2) => some (s2, e1 ++ e2)
    else switchLoop ws rest s

/-- switch_ws (wm.c:1303-1334): runs the hide and show loops, sets the
current workspace, reads the destination's monitor (for its log
line), focuses the head of the destination's stacking list — a
no-op when that list is empty, leaving the focused-client reference
untouched — and exports the current-desktop property. -/
def st_switch_ws (s : WMState) (ws : Nat) : Option (WMState × List Effect) :=
  match switchLoop ws (List.range s.c_list.length) s with
  | none => none
  | some (s1, e1) =>
    let s2 := { s1 with curr_ws := ws }
    match s2.m_list.get? (s2.ws_m_list.getD ws 0) with
    | none => none
    | some _ =>
      match st_manage_focus s2 ((s2.c_list.getD ws []).head?) with
      | none => none
      | some (s3, e2) =>
        some (s3, e1 ++ e2 ++ [Effect.setCurrentDesktopProp (Int.ofNat ws)])

/-- ipc_window_center (wm.c:589-593): unlike its sibling handlers it
has no null check on the focused-client reference and passes it to
client_center unconditionally. -/
def ipc_window_center (s : WMState) (d : List Int) : Option (WMState × List Effect) :=
  st_client_center s s.f_client

/-- ipc_cardinal_focus (wm.c:710-715): also without a null check; the
direction code d[1] is modelled pre-decoded (the direction constants
live in a header not under src). -/
def ipc_cardinal_focus (s : WMState) (dir : Dir) : Option (WMState × List Effect) :=
  st_cardinal_focus s dir

/-- ipc_move_absolute (wm.c:497-509): returns immediately when no
client is focused, else moves the focused client to (d[1], d[2]). -/
def ipc_move_absolute (s : WMState) (d : List Int) : Option (WMState × List Effect) :=
  match s.f_client with
  | none => some (s, [])
  | some w =>
    match findClient s w with
    | none => none
    | some c =>
      let r := client_move_absolute s.conf c (d.getD 1 0) (d.getD 2 0)
      some (updClient s r.1, r.2)

/-- ipc_fullscreen (wm.c:683-690): returns immediately when no client
is focused, else toggles fullscreen against the client's monitor. -/
def ipc_fullscreen (s : WMState) (d : List Int) : Option (WMState × List Effect) :=
  match s.f_client with
  | none => some (s, [])
  | some w =>
    match findClient s w with
    | none => none
    | some c =>
      match s.m_list.get? (s.ws_m_list.getD (idx c.ws) 0) with
      | none => none
      | some m =>
        let r := client_fullscreen s.conf m c
        some (updClient s r.1, r.2)

/-- ipc_switch_ws (wm.c:666-671): the workspace number d[1] is
1-based and decremented before the switch. -/
def ipc_switch_ws (s : WMState) (d : List Int) : Option (WMState × List Effect) :=
  st_switch_ws s (idx (d.getD 1 0 - 1))

/-- ipc_send_to_ws (wm.c:673-681): guarded by the null check on the
focused client; the destination d[1] is 1-based. -/
def ipc_send_to_ws (s : WMState) (d : List Int) : Option (WMState × List Effect) :=
  match s.f_client with
  | none => some (s, [])
  | some w =>
    match findClient s w with
    | none => none
    | some c => st_client_send_to_ws s c (d.getD 1 0 - 1)

/-- The state right after setup with one 1920 by 1080 monitor, two
workspaces both mapped to monitor 0, and no clients; edge lock off
for this configuration. -/
def initState : WMState :=
  { f_client := none, clients := [],
    c_list := [[], []], f_list := [[], []],
    ws_m_list := [0, 0],
    m_list := [{ x := 0, y := 0, width := 1920, height := 1080, screen := 0 }],
    curr_ws := 0,
    conf := { b_width := 2, t_height := 20, i_width := 1, bf_color := 1,
              bu_color := 2, if_color := 3, iu_color := 4, m_step := 10,
              r_step := 10, focus_new := true, edge_lock := false, top_gap := 10 },
    display_width := 1920, display_height := 1080 }

/-- The focused-client invariant of the spec (section 3), as a
checkable predicate: a non-null focused-client reference points into
the stacking list of the current workspace. -/
def focusInvHolds (s : WMState) : Bool :=
  match s.f_client with
  | none => true
  | some w => (s.c_list.getD s.curr_ws []).contains w

/-- Mapping one window (handle 1, decoration handle 2) on workspace 0
of the fresh state. -/
def c3_after_map : Option WMState :=
  (st_manage_new_window initState 1 2
    { x := 10, y := 10, width := 100, height := 100 } false).map (fun p => p.1)

/-- Then switching to (empty) workspace 2, via the 1-based IPC
argument. -/
def c3_final : Option WMState :=
  c3_after_map.bind (fun s => (ipc_switch_ws s [0, 2]).map (fun p => p.1))

/-- A reachable-shape state with no focused client but a non-empty
current stacking list (reachable e.g. by mapping a window on another
workspace and unmapping it while a client of the current workspace is
still managed: client_delete clears f_client whenever the deleted
client's workspace empties). -/
def c1State : WMState :=
  { initState with clients := [clientA], c_list := [[5], []], f_list := [[5], []] }

/-- A state in which client 5 is focused (and decorated, so a repaint
would be an observable setColor effect). -/
def c2State : WMState :=
  { initState with
    clients := [clientA], c_list := [[5], []], f_list := [[5], []],
    f_client := some 5 }

/-- The condition under which one workspace index makes stf_go return
false: another index on the same monitor whose stacking-list head
resolves to a non-hidden client. -/
def stf_bad (s : WMState) (ws mon : Nat) (i : Nat) : Bool :=
  decide (i ≠ ws) && decide (s.ws_m_list.getD i 0 = mon) &&
    (match (s.c_list.getD i []).head? with
     | none => false
     | some w =>
       match findClient s w with
       | none => false
       | some c => !c.hidden)

/-- A hidden client at the head of workspace 0's stacking list. -/
def clientHidden : Client :=
  { window := 10, dec := 11, ws := 0,
    geom := { x := 0, y := 0, width := 50, height := 50 },
    decorated := false, hidden := true, fullscreen := false, x_hide := 0 }

/-- A visible client behind it in the same stacking list. -/
def clientVisible : Client :=
  { window := 12, dec := 13, ws := 0,
    geom := { x := 60, y := 0, width := 50, height := 50 },
    decorated := false, hidden := false, fullscreen := false, x_hide := 0 }

/-- Workspaces 0 and 1 share monitor 0; workspace 0's stacking list has
a hidden head and a non-hidden second client. -/
def c8State : WMState :=
  { initState with
    clients := [clientHidden, clientVisible],
    c_list := [[10, 12], []], f_list := [[10, 12], []] }

/-- The claim's reading of unsafety, following the spec's words: some
other workspace mapped to the same monitor has a stacking list
containing at least one non-hidden client (any member, not just the
head).  Stated separately for comparison with the code's
safe_to_focus. -/
def spec_unsafe_to_focus (s : WMState) (ws : Nat) : Bool :=
  (List.range s.c_list.length).any (fun i =>
    decide (i ≠ ws) && decide (s.ws_m_list.getD i 0 = s.ws_m_list.getD ws 0) &&
      (s.c_list.getD i []).any (fun w =>
        match findClient s w with
        | some c => !c.hidden
        | none => false))

/-- A candidate east of clientA, farther away. -/
def clientE1 : Client :=
  { window := 20, dec := 0, ws := 0,
    geom := { x := 50, y := 20, width := 10, height := 10 },
    decorated := false, hidden := false, fullscreen := false, x_hide := 0 }

/-- A hidden candidate east of clientA, nearer: the scan must pick it
even though it is hidden. -/
def clientE2 : Client :=
  { window := 21, dec := 0, ws := 0,
    geom := { x := 40, y := 20, width := 10, height := 10 },
    decorated := false, hidden := true, fullscreen := false, x_hide := 0 }

/-- C6: for a decorated client, move_absolute then resize_absolute leaves the
stored geometry exactly (x, y, max(w, MINIMUM_DIM), max(h, MINIMUM_DIM)):
decoration offsets only affect the effects sent to the display surface. -/
theorem c6_stored_geometry_roundtrip (conf : Config) (c : Client) (x y w h : Int)
    (hdec : c.decorated = true) :
    ((client_resize_absolute conf (client_move_absolute conf c x y).1 w h).1).geom =
      { x := x, y := y, width := max w MINIMUM_DIM, height := max h MINIMUM_DIM } :=
  rfl

/-- Witness for c6_stored_geometry_roundtrip at a concrete decorated client. -/
theorem c6_stored_geometry_roundtrip_witness :
    clientA.decorated = true ∧
    ((client_resize_absolute confA (client_move_absolute confA clientA 5 6).1 50 60).1).geom =
      { x := 5, y := 6, width := max 50 MINIMUM_DIM, height := max 60 MINIMUM_DIM } :=
  ⟨rfl, c6_stored_geometry_roundtrip confA clientA 5 6 50 60 rfl⟩

/-- C7 counterexample: with edge lock on and a positive top gap, a relative
move whose destination lies above the top-gap line is clamped to the
monitor's own top edge (mon.y), which is above the top edge offset by the
top gap — the claim that the destination cannot cross the offset edge fails. -/
theorem c7_top_gap_counterexample :
    confA.edge_lock = true ∧
    ((client_move_relative confA monA clientA 0 (-15)).1).geom.y = 0 ∧
    ((client_move_relative confA monA clientA 0 (-15)).1).geom.y <
      monA.y + confA.top_gap := by
  refine ⟨rfl, rfl, ?_⟩
  decide

/-- C7 amended: with edge lock enabled, the stored destination is clamped so
the stored-geometry box stays inside the monitor's left, right and bottom
edges (x in [mon.x, mon.x + W - w], y in [mon.y, mon.y + H - h]); a
destination above the top edge offset by top_gap is clamped to the monitor's
top edge mon.y itself, not to the offset line. -/
theorem c7_edge_lock_clamp (conf : Config) (mon : Monitor) (c : Client) (dx dy : Int)
    (hel : conf.edge_lock = true)
    (hw0 : 0 ≤ c.geom.width) (hw : c.geom.width ≤ mon.width)
    (hh0 : 0 ≤ c.geom.height) (hh : c.geom.height ≤ mon.height)
    (hg : 0 ≤ conf.top_gap) :
    (mon.x ≤ ((client_move_relative conf mon c dx dy).1).geom.x ∧
      ((client_move_relative conf mon c dx dy).1).geom.x ≤
        mon.x + mon.width - c.geom.width) ∧
    (mon.y ≤ ((client_move_relative conf mon c dx dy).1).geom.y ∧
      ((client_move_relative conf mon c dx dy).1).geom.y ≤
        mon.y + mon.height - c.geom.height) ∧
    (c.geom.y + c.geom.height + dy ≤ mon.height + mon.y →
      c.geom.y + dy < mon.y + conf.top_gap →
      ((client_move_relative conf mon c dx dy).1).geom.y = mon.y) := by
  simp only [client_move_relative, hel, if_true, client_move_absolute]
  split_ifs <;> simp_all <;> omega

/-- Witness for c7_edge_lock_clamp at a concrete client and monitor. -/
theorem c7_edge_lock_clamp_witness :
    confA.edge_lock = true ∧ (0 : Int) ≤ clientA.geom.width ∧
    ((client_move_relative confA monA clientA 300 0).1).geom.x ≤
      monA.x + monA.width - clientA.geom.width :=
  ⟨rfl, by decide,
    ((c7_edge_lock_clamp confA monA clientA 300 0 rfl (by decide) (by decide)
      (by decide) (by decide) (by decide)).1).2⟩

/-- C10: client_fullscreen always stores the monitor origin and (floored)
monitor bounds regardless of the current fullscreen flag — toggling the
flag off does not restore any earlier geometry — the flag is toggled, and
between the two directions of the toggle the resulting client states and
emitted effects agree except for the flag and the final fullscreen-state
property effect (set in one direction, cleared in the other). -/
theorem c10_fullscreen_no_restore (conf : Config) (mon : Monitor) (c : Client) :
    ((client_fullscreen conf mon c).1).geom =
      { x := mon.x, y := mon.y, width := max mon.width MINIMUM_DIM,
        height := max mon.height MINIMUM_DIM } ∧
    ((client_fullscreen conf mon c).1).fullscreen = !c.fullscreen ∧
    (client_fullscreen conf mon { c with fullscreen := !c.fullscreen }).1 =
      { (client_fullscreen conf mon c).1 with fullscreen := c.fullscreen } ∧
    ((client_fullscreen conf mon { c with fullscreen := !c.fullscreen }).2).dropLast =
      ((client_fullscreen conf mon c).2).dropLast ∧
    ((client_fullscreen conf mon c).2).getLast? =
      some (if c.fullscreen = true then Effect.clearFullscreenProp c.window
            else Effect.setFullscreenProp c.window) ∧
    ((client_fullscreen conf mon { c with fullscreen := !c.fullscreen }).2).getLast? =
      some (if c.fullscreen = true then Effect.setFullscreenProp c.window
            else Effect.clearFullscreenProp c.window) := by
  obtain ⟨w, d, ws, g, dec, hid, fs, xh⟩ := c
  cases dec <;> cases fs <;> exact ⟨rfl, rfl, rfl, rfl, rfl, rfl⟩

theorem cnt_pos_iff (w : Nat) (l : List Nat) : 0 < cnt w l ↔ w ∈ l := by
  induction l with
  | nil => simp [cnt]
  | cons x xs ih =>
    rcases eq_or_ne x w with h | h
    · subst h; simp [cnt]
    · simp [cnt, h, ih, Ne.symm h]

theorem listRemove_isSome_of_mem (w : Nat) (l : List Nat) (h : w ∈ l) :
    ∃ l2, listRemove w l = some l2 := by
  induction l with
  | nil => cases h
  | cons x xs ih =>
    by_cases hx : x = w
    · exact ⟨xs, by simp [listRemove, hx]⟩
    · rcases List.mem_cons.mp h with h1 | h1
      · exact absurd h1.symm hx
      · obtain ⟨ys, hy⟩ := ih h1
        exact ⟨x :: ys, by simp [listRemove, hx, hy]⟩

theorem listRemove_cnt_self (w : Nat) (l l2 : List Nat)
    (h : listRemove w l = some l2) : cnt w l2 + 1 = cnt w l := by
  induction l generalizing l2 with
  | nil => simp [listRemove] at h
  | cons x xs ih =>
    by_cases hx : x = w
    · simp only [listRemove, if_pos hx, Option.some.injEq] at h
      subst h; simp [cnt, hx]; omega
    · simp only [listRemove, if_neg hx, Option.map_eq_some'] at h
      obtain ⟨ys, hy, rfl⟩ := h
      have := ih ys hy
      simp [cnt, hx]
      omega

theorem listRemove_cnt_ne (w v : Nat) (hv : v ≠ w) (l l2 : List Nat)
    (h : listRemove w l = some l2) : cnt v l2 = cnt v l := by
  induction l generalizing l2 with
  | nil => simp [listRemove] at h
  | cons x xs ih =>
    by_cases hx : x = w
    · simp only [listRemove, if_pos hx, Option.some.injEq] at h
      subst h; subst hx
      simp [cnt, Ne.symm hv]
    · simp only [listRemove, if_neg hx, Option.map_eq_some'] at h
      obtain ⟨ys, hy, rfl⟩ := h
      have := ih ys hy
      simp [cnt]
      omega

theorem listRemove_head (w x : Nat) (xs l2 : List Nat) (hx : x ≠ w)
    (h : listRemove w (x :: xs) = some l2) : l2.head? = some x := by
  simp only [listRemove, if_neg hx, Option.map_eq_some'] at h
  obtain ⟨ys, _, rfl⟩ := h
  rfl

theorem getD_set_self (ls : List (List Nat)) (i : Nat) (x : List Nat)
    (h : i < ls.length) : (ls.set i x).getD i [] = x := by
  induction ls generalizing i with
  | nil => simp at h
  | cons a as ih =>
    cases i with
    | zero => rfl
    | succ n => simpa using ih n (by simpa using h)

theorem getD_set_ne (ls : List (List Nat)) (i j : Nat) (x : List Nat)
    (h : j ≠ i) : (ls.set i x).getD j [] = ls.getD j [] := by
  induction ls generalizing i j with
  | nil => simp [List.set]
  | cons a as ih =>
    cases i with
    | zero =>
      cases j with
      | zero => exact absurd rfl h
      | succ m => simp
    | succ n =>
      cases j with
      | zero => simp
      | succ m => simpa using ih n m (fun hh => h (by rw [hh]))

theorem cnt_le_occ (w : Nat) (ls : List (List Nat)) (i : Nat) :
    cnt w (ls.getD i []) ≤ occ w ls := by
  induction ls generalizing i with
  | nil => simp [cnt]
  | cons a as ih =>
    cases i with
    | zero => simp [occ]
    | succ n =>
      have := ih n
      simp only [List.getD_cons_succ, occ]
      omega

theorem occ_set (w : Nat) (ls : List (List Nat)) (i : Nat) (x : List Nat)
    (h : i < ls.length) :
    occ w (ls.set i x) + cnt w (ls.getD i []) = occ w ls + cnt w x := by
  induction ls generalizing i with
  | nil => simp at h
  | cons a as ih =>
    cases i with
    | zero => simp [occ]; omega
    | succ n =>
      have := ih n (by simpa using h)
      simp only [List.set_cons_succ, List.getD_cons_succ, occ]
      omega

theorem mtf_cnt (w : Nat) (l l2 : List Nat)
    (h : client_move_to_front_list w l = some l2) (v : Nat) : cnt v l2 = cnt v l := by
  cases l with
  | nil => simp [client_move_to_front_list] at h
  | cons x xs =>
    have huf : client_move_to_front_list w (x :: xs) =
        if x = w ∨ xs = [] then some (x :: xs)
        else (listRemove w xs).map (fun ys => w :: x :: ys) := rfl
    by_cases hc : x = w ∨ xs = []
    · rw [huf, if_pos hc] at h
      cases h; rfl
    · rw [huf, if_neg hc, Option.map_eq_some'] at h
      have hx : x ≠ w := fun hh => hc (Or.inl hh)
      obtain ⟨ys, hy, rfl⟩ := h
      by_cases hv : v = w
      · subst hv
        have h1 := listRemove_cnt_self v xs ys hy
        simp [cnt, hx]
        omega
      · have h1 := listRemove_cnt_ne w v hv xs ys hy
        simp [cnt, Ne.symm hv]
        omega

theorem mtf_isSome_of_mem (w : Nat) (l : List Nat) (h : w ∈ l) :
    ∃ l2, client_move_to_front_list w l = some l2 := by
  cases l with
  | nil => cases h
  | cons x xs =>
    have huf : client_move_to_front_list w (x :: xs) =
        if x = w ∨ xs = [] then some (x :: xs)
        else (listRemove w xs).map (fun ys => w :: x :: ys) := rfl
    by_cases hc : x = w ∨ xs = []
    · exact ⟨x :: xs, by rw [huf, if_pos hc]⟩
    · have hx : x ≠ w := fun hh => hc (Or.inl hh)
      have hm : w ∈ xs := by
        rcases List.mem_cons.mp h with h1 | h1
        · exact absurd h1.symm hx
        · exact h1
      obtain ⟨ys, hy⟩ := listRemove_isSome_of_mem w xs hm
      exact ⟨w :: x :: ys, by rw [huf, if_neg hc, hy]; rfl⟩

theorem cnt_cons (x w : Nat) (l : List Nat) :
    cnt w (x :: l) = (if x = w then 1 else 0) + cnt w l := rfl

theorem regInv_save (cl fl : List (List Nat)) (w ws : Nat)
    (hinv : RegInv cl fl) (hcl : ws < cl.length) (hfl : ws < fl.length)
    (hfresh : occ w cl = 0) (hfreshf : occ w fl = 0) :
    RegInv (client_save_lists w ws cl fl).1 (client_save_lists w ws cl fl).2 := by
  intro v
  obtain ⟨h1, h2, h3⟩ := hinv v
  have hsc := occ_set v cl ws (w :: cl.getD ws []) hcl
  have hsf := occ_set v fl ws (w :: fl.getD ws []) hfl
  rw [cnt_cons] at hsc hsf
  refine ⟨?_, ?_, ?_⟩
  · simp only [client_save_lists]
    have e1 := cnt_le_occ v cl ws
    split_ifs at hsc with h
    · subst h; omega
    · omega
  · simp only [client_save_lists]
    have e2 := cnt_le_occ v fl ws
    split_ifs at hsf with h
    · subst h; omega
    · omega
  · intro i
    by_cases hi : i = ws
    · subst hi
      simp only [client_save_lists]
      rw [getD_set_self _ _ _ hcl, getD_set_self _ _ _ hfl,
        List.mem_cons, List.mem_cons, h3 i]
    · simp only [client_save_lists]
      rw [getD_set_ne _ _ _ _ hi, getD_set_ne _ _ _ _ hi]
      exact h3 i

theorem regInv_delete (cl fl : List (List Nat)) (w ws : Nat)
    (hinv : RegInv cl fl) (hcl : ws < cl.length) (hfl : ws < fl.length)
    (hmem : w ∈ cl.getD ws []) :
    ∃ cf, client_delete_lists w ws cl fl = some cf ∧ RegInv cf.1 cf.2 := by
  have hmemf : w ∈ fl.getD ws [] := ((hinv w).2.2 ws).mp hmem
  obtain ⟨cl2, hc2⟩ := listRemove_isSome_of_mem w _ hmem
  obtain ⟨fl2, hf2⟩ := listRemove_isSome_of_mem w _ hmemf
  refine ⟨(cl.set ws cl2, fl.set ws fl2),
    by unfold client_delete_lists; rw [hc2, hf2], ?_⟩
  dsimp only
  intro v
  obtain ⟨h1, h2, h3⟩ := hinv v
  have hsc := occ_set v cl ws cl2 hcl
  have hsf := occ_set v fl ws fl2 hfl
  by_cases hv : v = w
  · subst hv
    have d1 := listRemove_cnt_self v _ _ hc2
    have d2 := listRemove_cnt_self v _ _ hf2
    refine ⟨by omega, by omega, ?_⟩
    intro i
    by_cases hi : i = ws
    · subst hi
      rw [getD_set_self _ _ _ hcl, getD_set_self _ _ _ hfl]
      have e1 := cnt_le_occ v cl i
      have e2 := cnt_le_occ v fl i
      have m1 : 0 < cnt v (cl.getD i []) := (cnt_pos_iff v _).mpr hmem
      have m2 : 0 < cnt v (fl.getD i []) := (cnt_pos_iff v _).mpr hmemf
      constructor
      · intro hx; have := (cnt_pos_iff v cl2).mpr hx; omega
      · intro hx; have := (cnt_pos_iff v fl2).mpr hx; omega
    · rw [getD_set_ne _ _ _ _ hi, getD_set_ne _ _ _ _ hi]
      exact h3 i
  · have d1 := listRemove_cnt_ne w v hv _ _ hc2
    have d2 := listRemove_cnt_ne w v hv _ _ hf2
    refine ⟨by omega, by omega, ?_⟩
    intro i
    by_cases hi : i = ws
    · subst hi
      rw [getD_set_self _ _ _ hcl, getD_set_self _ _ _ hfl]
      rw [← cnt_pos_iff, ← cnt_pos_iff, d1, d2, cnt_pos_iff, cnt_pos_iff]
      exact h3 i
    · rw [getD_set_ne _ _ _ _ hi, getD_set_ne _ _ _ _ hi]
      exact h3 i

theorem regInv_mtf (cl fl : List (List Nat)) (w ws : Nat)
    (hinv : RegInv cl fl) (hcl : ws < cl.length)
    (hmem : w ∈ cl.getD ws []) :
    ∃ cl2, client_move_to_front_list w (cl.getD ws []) = some cl2 ∧
      RegInv (cl.set ws cl2) fl := by
  obtain ⟨cl2, h2⟩ := mtf_isSome_of_mem w _ hmem
  refine ⟨cl2, h2, ?_⟩
  intro v
  obtain ⟨h1, hb, h3⟩ := hinv v
  have hcnt := mtf_cnt w _ _ h2 v
  have hsc := occ_set v cl ws cl2 hcl
  refine ⟨by omega, hb, ?_⟩
  intro i
  by_cases hi : i = ws
  · subst hi
    rw [getD_set_self _ _ _ hcl, ← cnt_pos_iff, hcnt, cnt_pos_iff]
    exact h3 i
  · rw [getD_set_ne _ _ _ _ hi]
    exact h3 i

/-- C4: from a state satisfying the registry invariant, saving a fresh
client, deleting a present client, and moving a present client to the
front of its stacking list each preserve the invariant (same members
in the stacking and focus lists of each workspace); moreover a client
present anywhere occurs in exactly one stacking list and exactly one
focus list. -/
theorem c4_registry_membership_invariant (cl fl : List (List Nat)) (w ws : Nat)
    (hinv : RegInv cl fl) (hcl : ws < cl.length) (hfl : ws < fl.length) :
    (occ w cl = 0 → occ w fl = 0 →
      RegInv (client_save_lists w ws cl fl).1 (client_save_lists w ws cl fl).2) ∧
    (w ∈ cl.getD ws [] →
      ∃ cf, client_delete_lists w ws cl fl = some cf ∧ RegInv cf.1 cf.2) ∧
    (w ∈ cl.getD ws [] →
      ∃ cl2, client_move_to_front_list w (cl.getD ws []) = some cl2 ∧
        RegInv (cl.set ws cl2) fl) ∧
    (∀ v i, v ∈ cl.getD i [] → occ v cl = 1 ∧ occ v fl = 1) := by
  refine ⟨fun hf hff => regInv_save cl fl w ws hinv hcl hfl hf hff,
    fun hm => regInv_delete cl fl w ws hinv hcl hfl hm,
    fun hm => regInv_mtf cl fl w ws hinv hcl hm,
    fun v i hv => ?_⟩
  obtain ⟨h1, h2, h3⟩ := hinv v
  have c1 := cnt_le_occ v cl i
  have c2 := cnt_le_occ v fl i
  have p1 := (cnt_pos_iff v _).mpr hv
  have p2 := (cnt_pos_iff v _).mpr ((h3 i).mp hv)
  omega

theorem regInvPair : RegInv [[3], [4]] [[3], [4]] := by
  intro v
  refine ⟨?_, ?_, fun i => Iff.rfl⟩ <;>
    · simp only [occ, cnt]
      split_ifs <;> omega

/-- Witness for c4_registry_membership_invariant: the invariant holds
for a concrete two-workspace registry and is preserved by deleting
client 3 from workspace 0. -/
theorem c4_registry_membership_invariant_witness :
    RegInv [[3], [4]] [[3], [4]] ∧ (3 : Nat) ∈ ([[3], [4]] : List (List Nat)).getD 0 [] ∧
    (∃ cf, client_delete_lists 3 0 [[3], [4]] [[3], [4]] = some cf ∧ RegInv cf.1 cf.2) :=
  ⟨regInvPair, by decide,
    (c4_registry_membership_invariant [[3], [4]] [[3], [4]] 3 0 regInvPair
      (by decide) (by decide)).2.1 (by decide)⟩

/-- C5: deleting a client that is present in its recorded workspace's
stacking list (as it is after any save of it) succeeds and leaves the
client unreachable from both the stacking and the focus list of that
workspace, and the stacking-list head is unchanged whenever the
deleted client was not the head. -/
theorem c5_delete_unreachable_and_head (cl fl : List (List Nat)) (w ws : Nat)
    (hinv : RegInv cl fl) (hcl : ws < cl.length) (hfl : ws < fl.length)
    (hmem : w ∈ cl.getD ws []) :
    ∃ cf, client_delete_lists w ws cl fl = some cf ∧
      w ∉ cf.1.getD ws [] ∧ w ∉ cf.2.getD ws [] ∧
      ((cl.getD ws []).head? ≠ some w →
        (cf.1.getD ws []).head? = (cl.getD ws []).head?) := by
  have hmemf : w ∈ fl.getD ws [] := ((hinv w).2.2 ws).mp hmem
  obtain ⟨cl2, hc2⟩ := listRemove_isSome_of_mem w _ hmem
  obtain ⟨fl2, hf2⟩ := listRemove_isSome_of_mem w _ hmemf
  refine ⟨(cl.set ws cl2, fl.set ws fl2),
    by unfold client_delete_lists; rw [hc2, hf2], ?_, ?_, ?_⟩
  · rw [getD_set_self _ _ _ hcl]
    have d1 := listRemove_cnt_self w _ _ hc2
    have e1 := cnt_le_occ w cl ws
    have h1 := (hinv w).1
    have m1 := (cnt_pos_iff w _).mpr hmem
    intro hx
    have := (cnt_pos_iff w cl2).mpr hx
    omega
  · rw [getD_set_self _ _ _ hfl]
    have d2 := listRemove_cnt_self w _ _ hf2
    have e2 := cnt_le_occ w fl ws
    have h2 := (hinv w).2.1
    have m2 := (cnt_pos_iff w _).mpr hmemf
    intro hx
    have := (cnt_pos_iff w fl2).mpr hx
    omega
  · intro hhead
    rw [getD_set_self _ _ _ hcl]
    cases hl : cl.getD ws [] with
    | nil => rw [hl] at hmem; cases hmem
    | cons x xs =>
      rw [hl] at hc2 hhead
      have hx : x ≠ w := fun he => hhead (by rw [he]; rfl)
      rw [listRemove_head w x xs cl2 hx hc2]
      rfl

/-- Witness for c5_delete_unreachable_and_head: deleting client 4
(not the head of workspace 1 in a registry where it is the only entry
of its workspace) from the concrete registry. -/
theorem c5_delete_unreachable_and_head_witness :
    RegInv [[3], [4]] [[3], [4]] ∧ (4 : Nat) ∈ ([[3], [4]] : List (List Nat)).getD 1 [] ∧
    (∃ cf, client_delete_lists 4 1 [[3], [4]] [[3], [4]] = some cf ∧
      4 ∉ cf.1.getD 1 [] ∧ 4 ∉ cf.2.getD 1 [] ∧
      ((([[3], [4]] : List (List Nat)).getD 1 []).head? ≠ some 4 →
        (cf.1.getD 1 []).head? = (([[3], [4]] : List (List Nat)).getD 1 []).head?)) :=
  ⟨regInvPair, by decide,
    c5_delete_unreachable_and_head [[3], [4]] [[3], [4]] 4 1 regInvPair
      (by decide) (by decide) (by decide)⟩

theorem scan_some_ne_none (c : Client) (dir : Dir) (l : List Client) :
    ∀ (m : Int) (b : Client),
      client_cardinal_focus_scan c dir l m (some b) ≠ none := by
  induction l with
  | nil => intro m b h; cases h
  | cons t ts ih =>
    intro m b
    simp only [client_cardinal_focus_scan]
    split_ifs
    · exact ih _ _
    · exact ih _ _

theorem scan_none_iff (c : Client) (dir : Dir) (l : List Client) :
    ∀ m : Int,
      (client_cardinal_focus_scan c dir l m none = none ↔
        ∀ t ∈ l, ¬(onSide dir c t = true ∧ euclidean_distance c t < m)) := by
  induction l with
  | nil => intro m; simp [client_cardinal_focus_scan]
  | cons t ts ih =>
    intro m
    simp only [client_cardinal_focus_scan]
    split_ifs with h
    · constructor
      · intro hs; exact absurd hs (scan_some_ne_none c dir ts _ t)
      · intro hall; exact absurd h (hall t (List.mem_cons_self t ts))
    · rw [ih m]
      constructor
      · intro hall u hu
        rcases List.mem_cons.mp hu with rfl | hu2
        · exact h
        · exact hall u hu2
      · intro hall u hu
        exact hall u (List.mem_cons.mpr (Or.inr hu))

theorem scan_min (c : Client) (dir : Dir) (l : List Client) :
    ∀ (m : Int) (best : Option Client) (b : Client),
      client_cardinal_focus_scan c dir l m best = some b →
      (best = some b ∧
        ∀ t ∈ l, onSide dir c t = true → m ≤ euclidean_distance c t) ∨
      (b ∈ l ∧ onSide dir c b = true ∧ euclidean_distance c b < m ∧
        ∀ t ∈ l, onSide dir c t = true →
          euclidean_distance c b ≤ euclidean_distance c t) := by
  induction l with
  | nil =>
    intro m best b h
    left
    exact ⟨h, by simp⟩
  | cons t ts ih =>
    intro m best b h
    simp only [client_cardinal_focus_scan] at h
    split_ifs at h with hc
    · rcases ih _ _ _ h with ⟨hb, hall⟩ | ⟨hmem, hside, hlt, hall⟩
      · obtain rfl : t = b := Option.some.inj hb
        right
        refine ⟨List.mem_cons_self t ts, hc.1, hc.2, ?_⟩
        intro u hu hus
        rcases List.mem_cons.mp hu with rfl | hu2
        · exact le_refl _
        · exact hall u hu2 hus
      · right
        refine ⟨List.mem_cons.mpr (Or.inr hmem), hside, lt_trans hlt hc.2, ?_⟩
        intro u hu hus
        rcases List.mem_cons.mp hu with rfl | hu2
        · exact le_of_lt hlt
        · exact hall u hu2 hus
    · rcases ih _ _ _ h with ⟨hb, hall⟩ | ⟨hmem, hside, hlt, hall⟩
      · left
        refine ⟨hb, ?_⟩
        intro u hu hus
        rcases List.mem_cons.mp hu with rfl | hu2
        · by_contra h2
          exact hc ⟨hus, lt_of_not_le h2⟩
        · exact hall u hu2 hus
      · right
        refine ⟨List.mem_cons.mpr (Or.inr hmem), hside, hlt, ?_⟩
        intro u hu hus
        rcases List.mem_cons.mp hu with rfl | hu2
        · have hge : m ≤ euclidean_distance c u := by
            by_contra h2
            exact hc ⟨hus, lt_of_not_le h2⟩
          omega
        · exact hall u hu2 hus

theorem scan_first (c : Client) (dir : Dir) (l : List Client) :
    ∀ (m : Int) (best : Option Client) (b : Client),
      client_cardinal_focus_scan c dir l m best = some b →
      (best = some b ∧
        ∀ t ∈ l, onSide dir c t = true → m ≤ euclidean_distance c t) ∨
      (∃ l1 l2, l = l1 ++ b :: l2 ∧ onSide dir c b = true ∧
        euclidean_distance c b < m ∧
        ∀ t ∈ l1, onSide dir c t = true → euclidean_distance c t < m →
          euclidean_distance c b < euclidean_distance c t) := by
  induction l with
  | nil =>
    intro m best b h
    left
    exact ⟨h, by simp⟩
  | cons t ts ih =>
    intro m best b h
    simp only [client_cardinal_focus_scan] at h
    split_ifs at h with hc
    · rcases ih _ _ _ h with ⟨hb, hall⟩ | ⟨l1, l2, heq, hside, hlt, hall⟩
      · obtain rfl : t = b := Option.some.inj hb
        right
        exact ⟨[], ts, rfl, hc.1, hc.2, by simp⟩
      · right
        refine ⟨t :: l1, l2, by rw [heq, List.cons_append], hside, lt_trans hlt hc.2, ?_⟩
        intro u hu hus hum
        rcases List.mem_cons.mp hu with rfl | hu2
        · exact hlt
        · by_cases hut : euclidean_distance c u < euclidean_distance c t
          · exact hall u hu2 hus hut
          · omega
    · rcases ih _ _ _ h with ⟨hb, hall⟩ | ⟨l1, l2, heq, hside, hlt, hall⟩
      · left
        refine ⟨hb, ?_⟩
        intro u hu hus
        rcases List.mem_cons.mp hu with rfl | hu2
        · by_contra h2
          exact hc ⟨hus, lt_of_not_le h2⟩
        · exact hall u hu2 hus
      · right
        refine ⟨t :: l1, l2, by rw [heq, List.cons_append], hside, hlt, ?_⟩
        intro u hu hus hum
        rcases List.mem_cons.mp hu with rfl | hu2
        · exact absurd ⟨hus, hum⟩ hc
        · exact hall u hu2 hus hum

/-- C1 (code bug): ipc_window_center dereferences the null
focused-client reference (client_center reads c->ws) even in the
fresh no-client state, and ipc_cardinal_focus dereferences it in
euclidean_distance as soon as the current stacking list is non-empty;
by contrast the guarded sibling handlers (move-absolute, fullscreen)
really are state-preserving no-ops with no focused client. -/
theorem c1_unguarded_center_and_cardinal_fault :
    ipc_window_center initState [9, 0, 0] = none ∧
    ipc_cardinal_focus c1State Dir.east = none ∧
    ipc_move_absolute initState [2, 50, 60] = some (initState, []) ∧
    ipc_fullscreen initState [19] = some (initState, []) :=
  ⟨rfl, rfl, rfl, rfl⟩

/-- C2 counterexample: with client 5 previously focused,
client_manage_focus(null) emits no display-surface effect at all — in
particular no repaint of the previously-focused client with the
unfocused color pair — refuting the claimed repaint. -/
theorem c2_manage_focus_null_counterexample :
    c2State.f_client = some 5 ∧ clientA.decorated = true ∧
    st_manage_focus c2State none = some (c2State, []) :=
  ⟨rfl, rfl, rfl⟩

/-- C2 amended: client_manage_focus(null) is a complete no-op — it
does not repaint the previously-focused client, does not clear the
exported active-window property, and does not change the
focused-client reference (both guarded blocks of wm.c:800-820 require
a non-null argument). -/
theorem c2_manage_focus_null_noop (s : WMState) :
    st_manage_focus s none = some (s, []) := rfl

/-- C3 (code bug): after mapping one window on workspace 0 and then
switching to the empty workspace 1, the focused-client reference
still points at client 1 while the stacking list of the (new) current
workspace is empty — the spec's focused-client invariant fails on
this reachable two-step trace. -/
theorem c3_stale_focus_after_switch :
    c3_final.map (fun s => (s.f_client, s.curr_ws, s.c_list.getD s.curr_ws [])) =
      some (some 1, 1, []) ∧
    c3_final.map focusInvHolds = some false :=
  ⟨rfl, rfl⟩

theorem stf_go_eq (s : WMState) (ws mon : Nat) (is : List Nat)
    (H : ∀ i ∈ is,
      Option.all (fun w => (findClient s w).isSome) ((s.c_list.getD i []).head?) = true) :
    stf_go s ws mon is = some (!is.any (stf_bad s ws mon)) := by
  induction is with
  | nil => rfl
  | cons i rest ih =>
    have Hi := H i (List.mem_cons_self i rest)
    have Hrest : ∀ j ∈ rest,
        Option.all (fun w => (findClient s w).isSome) ((s.c_list.getD j []).head?) = true :=
      fun j hj => H j (List.mem_cons.mpr (Or.inr hj))
    simp only [stf_go, List.any_cons]
    split_ifs with hcond
    · cases hh : (s.c_list.getD i []).head? with
      | none =>
        have hb : stf_bad s ws mon i = false := by
          unfold stf_bad
          simp only [hh]
          simp
        rw [ih Hrest, hb]
        simp
      | some w =>
        rw [hh] at Hi
        simp only [Option.all] at Hi
        show (match findClient s w with
          | none => none
          | some c => if c.hidden = false then some false else stf_go s ws mon rest) =
          some (!(stf_bad s ws mon i || rest.any (stf_bad s ws mon)))
        cases hf : findClient s w with
        | none => rw [hf] at Hi; simp at Hi
        | some c =>
          show (if c.hidden = false then some false else stf_go s ws mon rest) =
            some (!(stf_bad s ws mon i || rest.any (stf_bad s ws mon)))
          cases hhid : c.hidden with
          | false =>
            have hb : stf_bad s ws mon i = true := by
              unfold stf_bad
              simp only [hh]
              simp only [hf]
              simp only [hhid, Bool.not_false, Bool.and_true]
              rw [Bool.and_eq_true]
              exact ⟨decide_eq_true hcond.1, decide_eq_true hcond.2⟩
            rw [hb]
            simp [hhid]
          | true =>
            have hb : stf_bad s ws mon i = false := by
              unfold stf_bad
              simp only [hh]
              simp only [hf]
              simp [hhid]
            rw [ih Hrest, hb]
            simp [hhid]
    · rw [ih Hrest]
      have hb : stf_bad s ws mon i = false := by
        unfold stf_bad
        by_cases h1 : i = ws
        · rw [decide_eq_false (fun hne => hne h1)]
          rfl
        · have h2 : ¬ s.ws_m_list.getD i 0 = mon := fun hx => hcond ⟨h1, hx⟩
          rw [decide_eq_false h2, Bool.and_false, Bool.false_and]
      rw [hb]
      simp

theorem stf_bad_true_iff (s : WMState) (ws mon i : Nat) :
    stf_bad s ws mon i = true ↔
      i ≠ ws ∧ s.ws_m_list.getD i 0 = mon ∧
        ∃ w c, (s.c_list.getD i []).head? = some w ∧ findClient s w = some c ∧
          c.hidden = false := by
  unfold stf_bad
  cases hh : (s.c_list.getD i []).head? with
  | none => simp only [hh]; simp
  | some w =>
    cases hf : findClient s w with
    | none =>
      simp only [hh]
      simp only [hf]
      simp
      intro _ _ x hx
      rw [hf] at hx
      cases hx
    | some c =>
      cases hhid : c.hidden with
      | false =>
        simp only [hh]
        simp only [hf]
        simp [hhid, and_assoc]
        intro _ _
        exact ⟨c, hf, hhid⟩
      | true =>
        simp only [hh]
        simp only [hf]
        simp [hhid]
        intro _ _ x hx
        rw [hf] at hx
        cases hx
        exact hhid

/-- C8 amended: under resolvable stacking-list heads, safe_to_focus
returns false exactly when some other workspace on the same monitor
has a non-empty stacking list whose head client is not hidden (the C
loop consults only the head's hidden flag). -/
theorem c8_safe_to_focus_head_only (s : WMState) (ws : Nat)
    (H : ∀ i ∈ List.range s.c_list.length,
      Option.all (fun w => (findClient s w).isSome) ((s.c_list.getD i []).head?) = true) :
    safe_to_focus s ws = some false ↔
      ∃ i ∈ List.range s.c_list.length, i ≠ ws ∧
        s.ws_m_list.getD i 0 = s.ws_m_list.getD ws 0 ∧
        ∃ w c, (s.c_list.getD i []).head? = some w ∧ findClient s w = some c ∧
          c.hidden = false := by
  rw [safe_to_focus, stf_go_eq s ws _ _ H]
  constructor
  · intro h
    have h2 := Option.some.inj h
    have hb : (List.range s.c_list.length).any
        (stf_bad s ws (s.ws_m_list.getD ws 0)) = true := by
      cases hany : (List.range s.c_list.length).any
          (stf_bad s ws (s.ws_m_list.getD ws 0)) with
      | true => rfl
      | false => rw [hany] at h2; simp at h2
    obtain ⟨i, hi, hbad⟩ := List.any_eq_true.mp hb
    exact ⟨i, hi, (stf_bad_true_iff s ws _ i).mp hbad⟩
  · rintro ⟨i, hi, h1, h2, hw⟩
    have hbad : stf_bad s ws (s.ws_m_list.getD ws 0) i = true :=
      (stf_bad_true_iff s ws _ i).mpr ⟨h1, h2, hw⟩
    rw [List.any_eq_true.mpr ⟨i, hi, hbad⟩]
    rfl

/-- C8 counterexample: workspace 0 (sharing monitor 0 with workspace
1) has a non-hidden client (window 12) in its stacking list, so the
claim requires safe_to_focus(1) to be false, yet the code returns
true because the head of the list is hidden. -/
theorem c8_head_only_counterexample :
    safe_to_focus c8State 1 = some true ∧
    spec_unsafe_to_focus c8State 1 = true ∧
    clientVisible.hidden = false ∧ (12 : Nat) ∈ c8State.c_list.getD 0 [] :=
  ⟨rfl, rfl, rfl, by decide⟩

/-- Witness for c8_safe_to_focus_head_only at the concrete state
(asking about workspace 0, whose sibling workspace 1 is empty). -/
theorem c8_safe_to_focus_head_only_witness :
    (∀ i ∈ List.range c8State.c_list.length,
      Option.all (fun w => (findClient c8State w).isSome)
        ((c8State.c_list.getD i []).head?) = true) ∧
    (safe_to_focus c8State 0 = some false ↔
      ∃ i ∈ List.range c8State.c_list.length, i ≠ 0 ∧
        c8State.ws_m_list.getD i 0 = c8State.ws_m_list.getD 0 0 ∧
        ∃ w c, (c8State.c_list.getD i []).head? = some w ∧
          findClient c8State w = some c ∧ c.hidden = false) :=
  ⟨by decide, c8_safe_to_focus_head_only c8State 0 (by decide)⟩

/-- C9: the cardinal-focus scan considers the whole current-workspace
stacking list (hidden clients included), keeps only candidates
strictly on the requested side, returns none exactly when there is no
candidate (given distances below the INT_MAX sentinel), and otherwise
returns a candidate of minimal distance that is the first minimal one
in list order; with no candidate the state-level operation returns
the state unchanged with no display-surface effect. -/
theorem c9_cardinal_focus_first_min (c : Client) (dir : Dir) (l : List Client)
    (hb : ∀ t ∈ l, euclidean_distance c t < INT_MAX) :
    (cardinal_target c dir l = none ↔ ∀ t ∈ l, onSide dir c t = false) ∧
    (∀ b, cardinal_target c dir l = some b →
      b ∈ l ∧ onSide dir c b = true ∧
      (∀ t ∈ l, onSide dir c t = true →
        euclidean_distance c b ≤ euclidean_distance c t) ∧
      ∃ l1 l2, l = l1 ++ b :: l2 ∧
        ∀ t ∈ l1, onSide dir c t = true →
          euclidean_distance c b < euclidean_distance c t) ∧
    (∀ s : WMState, s.c_list.getD s.curr_ws [] = [] →
      st_cardinal_focus s dir = some (s, [])) ∧
    (∀ (s : WMState) (w : Nat) (c0 : Client) (cs : List Client),
      s.f_client = some w → findClient s w = some c0 →
      resolveClients s (s.c_list.getD s.curr_ws []) = some cs →
      cardinal_target c0 dir cs = none →
      st_cardinal_focus s dir = some (s, [])) := by
  refine ⟨?_, ?_, ?_, ?_⟩
  · rw [cardinal_target, scan_none_iff]
    constructor
    · intro h t ht
      have hknock := h t ht
      cases hside : onSide dir c t with
      | false => rfl
      | true => exact absurd ⟨hside, hb t ht⟩ hknock
    · intro h t ht hcon
      rw [h t ht] at hcon
      exact Bool.false_ne_true hcon.1
  · intro b hsome
    rcases scan_min c dir l INT_MAX none b hsome with ⟨hne, _⟩ | ⟨hmem, hside, _, hmin⟩
    · exact Option.noConfusion hne
    · rcases scan_first c dir l INT_MAX none b hsome with
        ⟨hne, _⟩ | ⟨l1, l2, heq, _, _, hfirst⟩
      · exact Option.noConfusion hne
      · refine ⟨hmem, hside, hmin, l1, l2, heq, ?_⟩
        intro t ht hts
        have htl : t ∈ l := by
          rw [heq]
          exact List.mem_append.mpr (Or.inl ht)
        exact hfirst t ht hts (hb t htl)
  · intro s hempty
    unfold st_cardinal_focus
    rw [hempty]
  · intro s w c0 cs hf hfc hres htarget
    cases hl : s.c_list.getD s.curr_ws [] with
    | nil => unfold st_cardinal_focus; rw [hl]
    | cons x xs =>
      rw [hl] at hres
      simp only [st_cardinal_focus, hl, hf, hfc, hres, htarget]

/-- Witness for c9_cardinal_focus_first_min: against the concrete list
[clientE1, clientE2] the eastward scan from clientA selects the
nearer (hidden) clientE2, first minimal candidate in list order. -/
theorem c9_cardinal_focus_first_min_witness :
    (∀ t ∈ [clientE1, clientE2], euclidean_distance clientA t < INT_MAX) ∧
    (clientE2 ∈ [clientE1, clientE2] ∧ onSide Dir.east clientA clientE2 = true ∧
      (∀ t ∈ [clientE1, clientE2], onSide Dir.east clientA t = true →
        euclidean_distance clientA clientE2 ≤ euclidean_distance clientA t) ∧
      ∃ l1 l2, [clientE1, clientE2] = l1 ++ clientE2 :: l2 ∧
        ∀ t ∈ l1, onSide Dir.east clientA t = true →
          euclidean_distance clientA clientE2 < euclidean_distance clientA t) :=
  ⟨by decide,
    (c9_cardinal_focus_first_min clientA Dir.east [clientE1, clientE2]
      (by decide)).2.1 clientE2 (by decide)⟩
